import Mathlib

/-!
Shallow embedding of the core pipeline of
`src/codex_context/context_window_chart_v5.py`:
the ingestor `extract_session_data`, the correlation and cost/duration
logic inside `generate_html`, the position-to-time interpolation map,
and the per-session skip logic of `main`.

Modelling conventions:
* One JSONL line is a `Line`: either `malformed` (a line for which
  `json.loads` raises, or whose shape makes every branch of the
  classifier fall through with an exception) or a structured `Record`.
* A timestamp string is modelled by its parse result
  `tsMs : Option Int` (epoch milliseconds); `none` models
  `datetime.fromisoformat` raising on that record's timestamp.
* Python dict lookups with defaults (`.get(k, d)`) become `Option`
  fields with `getD`.  The truthiness test `payload.get('info')`
  becomes `Info.truthy`: a dict is truthy iff it is non-empty, so the
  model records whether any of the three read keys is present and
  whether any other key is (`extraKeys`).
* Durations are kept in milliseconds (`time_end - time_start`); the
  Python code divides by 1000.0 only for display formatting.
-/

/-- The `total_token_usage` / `last_token_usage` sub-dict: only
`total_tokens` is ever read (`.get('total_tokens', 0)`). -/
structure TokenUsage where
  total_tokens : Option Int
  deriving DecidableEq, Repr

/-- The `info` dict of a `token_count` payload.  `extraKeys` records
whether the dict holds keys other than the three the code reads, so
that Python truthiness (non-emptiness) is expressible. -/
structure Info where
  total_token_usage : Option TokenUsage
  last_token_usage : Option TokenUsage
  model_context_window : Option Int
  extraKeys : Bool
  deriving DecidableEq, Repr

/-- Python truthiness of the `info` dict: non-empty. -/
def Info.truthy (i : Info) : Bool :=
  i.total_token_usage.isSome || i.last_token_usage.isSome ||
    i.model_context_window.isSome || i.extraKeys

/-- The nested `payload` dict, discriminated by `payload.get('type')`.
`token_count` carries `payload.get('info')` (`none` models the key
being absent or holding a falsy non-dict value); `user_message`
carries `payload.get('message', '')` already defaulted. -/
inductive Payload where
  | token_count (info : Option Info)
  | user_message (message : String)
  | other
  deriving DecidableEq, Repr

/-- One successfully `json.loads`-parsed record.  `isEventMsg` is the
test `record.get('type') == 'event_msg' and isinstance(record.get('payload'), dict)`;
`tsMs` is the parse result of `record.get('timestamp', '')`. -/
structure Record where
  isEventMsg : Bool
  payload : Payload
  tsMs : Option Int
  deriving DecidableEq, Repr

/-- One line of the session JSONL file. -/
inductive Line where
  | malformed
  | record (r : Record)
  deriving DecidableEq, Repr

/-- One entry of `token_data` (a resource-usage snapshot). -/
structure Snapshot where
  tsMs : Int
  cumulative_total : Int
  context_tokens : Int
  model_context_window : Int
  message_index : Nat
  deriving DecidableEq, Repr

/-- One entry of `user_messages` (a user turn). -/
structure Turn where
  tsMs : Int
  message : String
  user_msg_index : Nat
  total_msg_index : Nat
  deriving DecidableEq, Repr

/-- First pass of `extract_session_data`:
`total_message_count = sum(1 for _ in f)`. -/
def countPass (log : List Line) : Nat :=
  log.foldl (fun n _ => n + 1) 0

/-- The (position, line) pairs visited by the classifying pass
(`for message_index, line in enumerate(f, 1)`). -/
def classifyEnum (log : List Line) : List (Nat × Line) :=
  List.enumFrom 1 log

/-- Position-free content of a snapshot (what one record contributes
regardless of where in the log it sits). -/
structure SnapData where
  tsMs : Int
  cumulative_total : Int
  context_tokens : Int
  model_context_window : Int
  deriving DecidableEq, Repr

/-- Attach the 1-based record position to snapshot content. -/
def SnapData.toSnapshot (d : SnapData) (pos : Nat) : Snapshot :=
  { tsMs := d.tsMs, cumulative_total := d.cumulative_total
    context_tokens := d.context_tokens
    model_context_window := d.model_context_window
    message_index := pos }

/-- Drop the position from a snapshot. -/
def Snapshot.strip (s : Snapshot) : SnapData :=
  { tsMs := s.tsMs, cumulative_total := s.cumulative_total
    context_tokens := s.context_tokens
    model_context_window := s.model_context_window }

/-- What one line contributes to the event streams. -/
inductive LineEvent where
  | snapshot (d : SnapData)
  | userTurn (message : String) (tsMs : Option Int)
  | skip
  deriving DecidableEq, Repr

/-- The per-record branch structure of `extract_session_data`
(lines 71-121 of the source).  A `token_count` record contributes a
snapshot only when `payload.get('info')` is truthy and its timestamp
parses (lines 78-102, with the `except` swallowing the timestamp
parse failure); dict lookups with defaults become `getD`.  A
`user_message` record is reported even when its timestamp later
fails to parse (`userTurn` with `none`), because the code increments
`user_message_index` BEFORE parsing the timestamp (lines 105-111). -/
def classifyLine : Line → LineEvent
  | Line.malformed => LineEvent.skip
  | Line.record r =>
    if r.isEventMsg then
      match r.payload with
      | Payload.token_count (some i) =>
        if i.truthy then
          match r.tsMs with
          | some t =>
            LineEvent.snapshot
              { tsMs := t
                cumulative_total :=
                  ((i.total_token_usage.getD ⟨none⟩).total_tokens).getD 0
                context_tokens :=
                  ((i.last_token_usage.getD ⟨none⟩).total_tokens).getD 0
                model_context_window := i.model_context_window.getD 272000 }
          | none => LineEvent.skip
        else LineEvent.skip
      | Payload.token_count none => LineEvent.skip
      | Payload.user_message msg => LineEvent.userTurn msg r.tsMs
      | Payload.other => LineEvent.skip
    else LineEvent.skip

/-- Classifying pass of `extract_session_data`, lines 69-121 of the
source: walk the log carrying the 1-based position `pos` and the
running `user_message_index` `umi`; emit the snapshot stream and the
turn stream.  A user-turn record whose timestamp fails to parse
consumes a `user_message_index` without emitting a turn. -/
def extractEvents : List Line → Nat → Nat → List Snapshot × List Turn
  | [], _, _ => ([], [])
  | l :: rest, pos, umi =>
    match classifyLine l with
    | LineEvent.snapshot d =>
      let ev := extractEvents rest (pos + 1) umi
      (d.toSnapshot pos :: ev.1, ev.2)
    | LineEvent.userTurn msg ots =>
      match ots with
      | some t =>
        let tn : Turn :=
          { tsMs := t, message := msg
            user_msg_index := umi + 1, total_msg_index := pos }
        let ev := extractEvents rest (pos + 1) (umi + 1)
        (ev.1, tn :: ev.2)
      | none => extractEvents rest (pos + 1) (umi + 1)
    | LineEvent.skip => extractEvents rest (pos + 1) umi

/-- Function `extract_session_data`: the two streams plus the total record
count from the counting pass. -/
def extract_session_data (log : List Line) :
    List Snapshot × List Turn × Nat :=
  let ev := extractEvents log 1 0
  (ev.1, ev.2, countPass log)

/-- One entry of `user_messages_with_context`: a turn enriched with
the matched start snapshot's context values (lines 361-428). -/
structure TurnCtx where
  tsMs : Int
  message : String
  context_tokens : Int
  cumulative_total : Int
  user_msg_index : Nat
  total_msg_index : Nat
  deriving DecidableEq, Repr

/-- Start-snapshot matching (lines 361-367 and the 398-400 fallback):
the first snapshot in list order whose timestamp is at-or-after the
turn's timestamp, else the last snapshot; `none` only when the
snapshot list is empty (the turn is then dropped). -/
def matchStart (toks : List Snapshot) (m : Turn) : Option Snapshot :=
  match toks.find? (fun tok => m.tsMs ≤ tok.tsMs) with
  | some tok => some tok
  | none => toks.getLast?

/-- Build `user_messages_with_context` from the two event streams. -/
def withContext (toks : List Snapshot) (turns : List Turn) : List TurnCtx :=
  turns.filterMap (fun m =>
    (matchStart toks m).map (fun tok =>
      { tsMs := m.tsMs, message := m.message
        context_tokens := tok.context_tokens
        cumulative_total := tok.cumulative_total
        user_msg_index := m.user_msg_index
        total_msg_index := m.total_msg_index }))

/-- Backward boundary scan (lines 491-495): the last snapshot whose
timestamp is strictly before `boundary`. -/
def matchEnd (toks : List Snapshot) (boundary : Int) : Option Snapshot :=
  toks.reverse.find? (fun tok => tok.tsMs < boundary)

/-- Cost and duration of message `i` of `user_messages_with_context`
(lines 479-506).  Non-last message: boundary is the next message's
timestamp, end values come from the backward scan with fallback to
the start values.  Last message: end values are taken directly from
`token_data[-1]` (`none` models the `IndexError` when `token_data`
is empty, which cannot happen downstream of `withContext`).  The
returned pair is `(cost, durationMs)`; the code divides the duration
by 1000.0 only to format it. -/
def turnMetrics (toks : List Snapshot) (msgs : List TurnCtx) (i : Nat) :
    Option (Int × Int) :=
  match msgs[i]? with
  | none => none
  | some m =>
    match msgs[i + 1]? with
    | some next =>
      match matchEnd toks next.tsMs with
      | some tok =>
        some (max 0 (tok.context_tokens - m.context_tokens), tok.tsMs - m.tsMs)
      | none =>
        some (max 0 (m.context_tokens - m.context_tokens), m.tsMs - m.tsMs)
    | none =>
      match toks.getLast? with
      | some tok =>
        some (max 0 (tok.context_tokens - m.context_tokens), tok.tsMs - m.tsMs)
      | none => none

/-- A turn together with its derived cost and duration. -/
structure EnrichedTurn where
  turn : TurnCtx
  cost : Int
  durationMs : Int
  deriving DecidableEq, Repr

/-- The correlator: enrich every matched turn with cost and duration. -/
def enrich (toks : List Snapshot) (turns : List Turn) : List EnrichedTurn :=
  let msgs := withContext toks turns
  (List.range msgs.length).filterMap (fun i =>
    (msgs[i]?).bind (fun m =>
      (turnMetrics toks msgs i).map (fun cd =>
        { turn := m, cost := cd.1, durationMs := cd.2 })))

/-- Exact part of the `index_to_ts` dict (lines 440-442): the
timestamp stored at a snapshot's position.  The dict write order
makes a later snapshot at the same position win, hence the reversed
scan; positions are unique in pipeline-produced data. -/
def snapExact (toks : List Snapshot) (p : Nat) : Option ℚ :=
  (toks.reverse.find? (fun tok => tok.message_index == p)).map
    (fun tok => (tok.tsMs : ℚ))

/-- Source `first_idx = min(pt['message_index'] for pt in token_data)`
(meaningful only for non-empty `toks`). -/
def minIdx (toks : List Snapshot) : Nat :=
  match toks.map (fun tok => tok.message_index) with
  | [] => 0
  | x :: xs => xs.foldl Nat.min x

/-- Source `last_idx = max(...)`. -/
def maxIdx (toks : List Snapshot) : Nat :=
  match toks.map (fun tok => tok.message_index) with
  | [] => 0
  | x :: xs => xs.foldl Nat.max x

/-- Source `first_ts = min(pt['ts_ms'] for pt in token_data)`. -/
def minTs (toks : List Snapshot) : Int :=
  match toks.map (fun tok => tok.tsMs) with
  | [] => 0
  | x :: xs => xs.foldl min x

/-- Source `last_ts = max(...)`. -/
def maxTs (toks : List Snapshot) : Int :=
  match toks.map (fun tok => tok.tsMs) with
  | [] => 0
  | x :: xs => xs.foldl max x

/-- The completed `index_to_ts` map (lines 439-458) as a function:
exact at snapshot positions; for every other index in
`[1, total_msg_count]`, when `token_data` is non-empty and
`last_idx > first_idx`, the linearly interpolated value
`first_ts + (idx - first_idx) / (last_idx - first_idx) * (last_ts - first_ts)`
(the loop runs over the whole range, so indices outside
`[first_idx, last_idx]` are extrapolated by the same formula);
everything else stays unmapped. -/
def index_to_ts (toks : List Snapshot) (total : Nat) (p : Nat) : Option ℚ :=
  match snapExact toks p with
  | some t => some t
  | none =>
    if toks.isEmpty then none
    else if 1 ≤ p ∧ p ≤ total then
      if minIdx toks < maxIdx toks then
        some ((minTs toks : ℚ) +
          (((p : ℚ) - (minIdx toks : ℚ)) / ((maxIdx toks : ℚ) - (minIdx toks : ℚ))) *
            ((maxTs toks : ℚ) - (minTs toks : ℚ)))
      else none
    else none

/-- Outcome of one session inside `main`'s batch loop
(lines 1601-1628): a session whose log yields no snapshots is
skipped with the "Skipping (no token data)" notice; otherwise the
chart data is generated. -/
inductive SessionOutcome where
  | skippedNoTokenData
  | chart (toks : List Snapshot) (enriched : List EnrichedTurn)
  deriving DecidableEq, Repr

/-- Per-session body of the batch loop in `main`. -/
def processSession (log : List Line) : SessionOutcome :=
  let ev := extract_session_data log
  if ev.1.isEmpty then SessionOutcome.skippedNoTokenData
  else SessionOutcome.chart ev.1 (enrich ev.1 ev.2.1)

/-- The batch loop: each session is processed independently
(`continue` after a skip). -/
def processBatch (logs : List (List Line)) : List SessionOutcome :=
  logs.map processSession

/-!  Auxiliary definitions used to state the claims. -/

/-- The timestamp a record carries, by position (`none` for lines
without a parseable record timestamp). -/
def lineTs : Line → Option Int
  | Line.malformed => none
  | Line.record r => r.tsMs

/-- The snapshot content a line contributes, if any. -/
def lineSnap (l : Line) : Option SnapData :=
  match classifyLine l with
  | LineEvent.snapshot d => some d
  | _ => none

/-- Whether a line is a user-turn record (one that consumes a
`user_message_index`, even if its timestamp fails to parse). -/
def isUserRec (l : Line) : Bool :=
  match classifyLine l with
  | LineEvent.userTurn _ _ => true
  | _ => false

/-- Number of user-turn records among the first `n` lines. -/
def userRecCount (log : List Line) (n : Nat) : Nat :=
  ((log.take n).filter isUserRec).length

/-- Shift a snapshot's position by one. -/
def Snapshot.bump (s : Snapshot) : Snapshot :=
  { s with message_index := s.message_index + 1 }

/-- Shift a snapshot's position by one when it is at-or-after `k`. -/
def Snapshot.bumpAfter (k : Nat) (s : Snapshot) : Snapshot :=
  if k ≤ s.message_index then s.bump else s

/-- Shift a turn's position by one. -/
def Turn.bump (t : Turn) : Turn :=
  { t with total_msg_index := t.total_msg_index + 1 }

/-- Shift a turn's position by one when it is at-or-after `k`. -/
def Turn.bumpAfter (k : Nat) (t : Turn) : Turn :=
  if k ≤ t.total_msg_index then t.bump else t

/-- Modelled from the spec (§4.2), for comparison with the code: the
claimed `contextAtEnd` of turn `i` — boundary is the next turn's
timestamp if it exists, else the timestamp of the very last
snapshot; then the last snapshot strictly before the boundary, with
fallback to `contextAtStart`. -/
def specContextAtEnd (toks : List Snapshot) (msgs : List TurnCtx) (i : Nat)
    (m : TurnCtx) : Option Int :=
  (match msgs[i + 1]? with
   | some next => some next.tsMs
   | none => (toks.getLast?).map Snapshot.tsMs).map (fun b =>
    match matchEnd toks b with
    | some tok => tok.context_tokens
    | none => m.context_tokens)

/-!  Concrete example data for counterexamples and witnesses. -/

/-- A well-formed `token_count` line. -/
def snapLine (t cum ctx : Int) : Line :=
  Line.record ⟨true,
    Payload.token_count (some ⟨some ⟨some cum⟩, some ⟨some ctx⟩, none, false⟩),
    some t⟩

/-- A well-formed `user_message` line. -/
def userLine (t : Int) (msg : String) : Line :=
  Line.record ⟨true, Payload.user_message msg, some t⟩

/-- C1 counterexample log: a snapshot at t=50 followed by user turns
at t=100 and t=150 (record timestamps non-decreasing by position). -/
def c1log : List Line := [snapLine 50 500 500, userLine 100 "a", userLine 150 "b"]

def c1toks : List Snapshot := (extract_session_data c1log).1

def c1msgs : List TurnCtx := withContext c1toks (extract_session_data c1log).2.1

/-- C1 witness log: a turn at t=0 with snapshots at t=10 and t=20. -/
def c1wlog : List Line := [userLine 0 "q", snapLine 10 5 5, snapLine 20 100 100]

def c1wtoks : List Snapshot := (extract_session_data c1wlog).1

def c1wmsgs : List TurnCtx := withContext c1wtoks (extract_session_data c1wlog).2.1

/-- C2 counterexample log: snapshots only at positions 2 and 3. -/
def c2log : List Line := [Line.malformed, snapLine 0 0 0, snapLine 900 0 0]

def c2toks : List Snapshot := (extract_session_data c2log).1

/-- C2 witness log: snapshots at positions 1 (t=0) and 10 (t=900),
eight unclassifiable lines in between (the spec's own interpolation
example). -/
def c2wlog : List Line :=
  snapLine 0 0 0 ::
    (List.replicate 8 Line.malformed ++ [snapLine 900 0 0])

def c2wtoks : List Snapshot := (extract_session_data c2wlog).1

/-- C2 degenerate-case witness: a single snapshot position. -/
def c2dtoks : List Snapshot := (extract_session_data [snapLine 0 0 0]).1

/-- C3 counterexample log: one turn at t=0, snapshots at t=10
(context 5) and t=20 (context 100). -/
def c3log : List Line := [userLine 0 "q", snapLine 10 5 5, snapLine 20 100 100]

def c3toks : List Snapshot := (extract_session_data c3log).1

def c3msgs : List TurnCtx := withContext c3toks (extract_session_data c3log).2.1

/-- C3/C5 style witness log with two turns. -/
def c3wlog : List Line :=
  [userLine 0 "q", snapLine 10 5 5, userLine 12 "r", snapLine 20 100 100]

def c3wtoks : List Snapshot := (extract_session_data c3wlog).1

def c3wmsgs : List TurnCtx := withContext c3wtoks (extract_session_data c3wlog).2.1

/-- C4 counterexample: a one-snapshot log. -/
def c4log : List Line := [snapLine 50 500 500]

/-- C5 snapshots at t=10 and t=20 (the spec's matching example). -/
def c5toks : List Snapshot :=
  (extract_session_data [snapLine 10 1 1, snapLine 20 2 2]).1

/-- A turn at t=15 (between the two snapshots). -/
def c5turnA : Turn := ⟨15, "m", 1, 3⟩

/-- A turn at t=25 (after both snapshots). -/
def c5turnB : Turn := ⟨25, "n", 2, 4⟩

/-- C6 counterexample log: cumulative totals 100 then 50. -/
def c6log : List Line := [snapLine 0 100 1, snapLine 1 50 1]

/-- C6 witness log: cumulative totals 1 then 2. -/
def c6wlog : List Line := [snapLine 0 1 1, snapLine 1 2 2]

/-- C8 counterexample log: a user-turn record whose timestamp fails
to parse, followed by a well-formed user turn. -/
def c8log : List Line :=
  [Line.record ⟨true, Payload.user_message "x", none⟩, userLine 5 "y"]

/-- C8 witness log. -/
def c8wlog : List Line := [userLine 5 "y", Line.malformed, userLine 7 "z"]

/-- C9 witness log: one turn, no snapshots. -/
def c9log : List Line := [userLine 5 "z"]

/-- C9 witness companion session: one snapshot. -/
def c9good : List Line := [snapLine 0 1 1]

/-- C10 counterexample record: a `token_count` record whose `info`
dict is present but empty. -/
def c10rec : Record :=
  ⟨true, Payload.token_count (some ⟨none, none, none, false⟩), some 0⟩

/-- C10 witness record: a truthy `info` dict (it has unrelated keys)
that omits all three fields the code reads. -/
def c10wrec : Record :=
  ⟨true, Payload.token_count (some ⟨none, none, none, true⟩), some 0⟩

/-!  General lemmas about the ingestor. -/

theorem countPass_eq_length (log : List Line) : countPass log = log.length := by
  have h : ∀ (l : List Line) (n : Nat), l.foldl (fun k _ => k + 1) n = n + l.length := by
    intro l
    induction l with
    | nil => intro n; simp
    | cons x xs ih => intro n; simp [List.foldl, ih]; omega
  simp only [countPass]
  rw [h log 0]
  omega

theorem classifyEnum_length (log : List Line) :
    (classifyEnum log).length = log.length := by
  have h : ∀ (l : List Line) (n : Nat), (List.enumFrom n l).length = l.length := by
    intro l
    induction l with
    | nil => intro n; rfl
    | cons x xs ih => intro n; simp [List.enumFrom, ih]
  simp only [classifyEnum]
  exact h log 1

theorem extract_strip (log : List Line) : ∀ p umi,
    ((extractEvents log p umi).1).map Snapshot.strip = log.filterMap lineSnap := by
  induction log with
  | nil => intro p umi; rfl
  | cons l rest ih =>
    intro p umi
    cases h : classifyLine l with
    | snapshot d =>
      simp [extractEvents, h, lineSnap, List.filterMap_cons]
      exact ⟨rfl, ih (p + 1) umi⟩
    | userTurn msg ots =>
      cases ots with
      | some t => simp [extractEvents, h, lineSnap, List.filterMap_cons, ih (p + 1) (umi + 1)]
      | none => simp [extractEvents, h, lineSnap, List.filterMap_cons, ih (p + 1) (umi + 1)]
    | skip => simp [extractEvents, h, lineSnap, List.filterMap_cons, ih (p + 1) umi]

theorem extract_pos_bounds (log : List Line) : ∀ p umi,
    (∀ s ∈ (extractEvents log p umi).1,
        p ≤ s.message_index ∧ s.message_index < p + log.length) ∧
    (∀ t ∈ (extractEvents log p umi).2,
        p ≤ t.total_msg_index ∧ t.total_msg_index < p + log.length) := by
  induction log with
  | nil =>
    intro p umi
    constructor <;> intro x hx <;> simp [extractEvents] at hx
  | cons l rest ih =>
    intro p umi
    cases h : classifyLine l with
    | snapshot d =>
      refine ⟨fun s hs => ?_, fun t ht => ?_⟩
      · simp [extractEvents, h] at hs
        rcases hs with rfl | hs
        · simp [SnapData.toSnapshot]
        · have hb := (ih (p + 1) umi).1 s hs
          simp only [List.length_cons]
          omega
      · simp [extractEvents, h] at ht
        have hb := (ih (p + 1) umi).2 t ht
        simp only [List.length_cons]
        omega
    | userTurn msg ots =>
      cases ots with
      | some t0 =>
        refine ⟨fun s hs => ?_, fun t ht => ?_⟩
        · simp [extractEvents, h] at hs
          have hb := (ih (p + 1) (umi + 1)).1 s hs
          simp only [List.length_cons]
          omega
        · simp [extractEvents, h] at ht
          rcases ht with rfl | ht
          · simp
          · have hb := (ih (p + 1) (umi + 1)).2 t ht
            simp only [List.length_cons]
            omega
      | none =>
        refine ⟨fun s hs => ?_, fun t ht => ?_⟩
        · simp [extractEvents, h] at hs
          have hb := (ih (p + 1) (umi + 1)).1 s hs
          simp only [List.length_cons]
          omega
        · simp [extractEvents, h] at ht
          have hb := (ih (p + 1) (umi + 1)).2 t ht
          simp only [List.length_cons]
          omega
    | skip =>
      refine ⟨fun s hs => ?_, fun t ht => ?_⟩
      · simp [extractEvents, h] at hs
        have hb := (ih (p + 1) umi).1 s hs
        simp only [List.length_cons]
        omega
      · simp [extractEvents, h] at ht
        have hb := (ih (p + 1) umi).2 t ht
        simp only [List.length_cons]
        omega

theorem extract_umi_lb (log : List Line) : ∀ p umi,
    ∀ t ∈ (extractEvents log p umi).2, umi < t.user_msg_index := by
  induction log with
  | nil => intro p umi t ht; simp [extractEvents] at ht
  | cons l rest ih =>
    intro p umi t ht
    cases h : classifyLine l with
    | snapshot d =>
      simp [extractEvents, h] at ht
      exact ih (p + 1) umi t ht
    | userTurn msg ots =>
      cases ots with
      | some t0 =>
        simp [extractEvents, h] at ht
        rcases ht with rfl | ht
        · exact Nat.lt_succ_self umi
        · have := ih (p + 1) (umi + 1) t ht
          omega
      | none =>
        simp [extractEvents, h] at ht
        have := ih (p + 1) (umi + 1) t ht
        omega
    | skip =>
      simp [extractEvents, h] at ht
      exact ih (p + 1) umi t ht

theorem extract_chains (log : List Line) : ∀ p umi,
    List.Chain' (fun a b => a.message_index < b.message_index)
      (extractEvents log p umi).1 ∧
    List.Chain' (fun a b => a.total_msg_index < b.total_msg_index)
      (extractEvents log p umi).2 ∧
    List.Chain' (fun a b => a.user_msg_index < b.user_msg_index)
      (extractEvents log p umi).2 := by
  induction log with
  | nil => intro p umi; simp [extractEvents]
  | cons l rest ih =>
    intro p umi
    cases h : classifyLine l with
    | snapshot d =>
      simp only [extractEvents, h]
      refine ⟨?_, (ih (p + 1) umi).2.1, (ih (p + 1) umi).2.2⟩
      · rw [List.chain'_cons']
        refine ⟨?_, (ih (p + 1) umi).1⟩
        intro b hb
        have hbm : b ∈ (extractEvents rest (p + 1) umi).1 :=
          List.mem_of_mem_head? hb
        have := ((extract_pos_bounds rest) (p + 1) umi).1 b hbm
        simp [SnapData.toSnapshot]
        omega
    | userTurn msg ots =>
      cases ots with
      | some t0 =>
        simp only [extractEvents, h]
        refine ⟨(ih (p + 1) (umi + 1)).1, ?_, ?_⟩
        · rw [List.chain'_cons']
          refine ⟨?_, (ih (p + 1) (umi + 1)).2.1⟩
          intro b hb
          have hbm : b ∈ (extractEvents rest (p + 1) (umi + 1)).2 :=
            List.mem_of_mem_head? hb
          have := ((extract_pos_bounds rest) (p + 1) (umi + 1)).2 b hbm
          simp
          omega
        · rw [List.chain'_cons']
          refine ⟨?_, (ih (p + 1) (umi + 1)).2.2⟩
          intro b hb
          have hbm : b ∈ (extractEvents rest (p + 1) (umi + 1)).2 :=
            List.mem_of_mem_head? hb
          have := extract_umi_lb rest (p + 1) (umi + 1) b hbm
          simp
          omega
      | none =>
        simp only [extractEvents, h]
        exact ⟨(ih (p + 1) (umi + 1)).1, (ih (p + 1) (umi + 1)).2.1,
          (ih (p + 1) (umi + 1)).2.2⟩
    | skip =>
      simp only [extractEvents, h]
      exact ⟨(ih (p + 1) umi).1, (ih (p + 1) umi).2.1, (ih (p + 1) umi).2.2⟩

theorem userRecCount_zero (log : List Line) : userRecCount log 0 = 0 := by
  simp [userRecCount]

theorem userRecCount_cons (l : Line) (rest : List Line) (n : Nat) :
    userRecCount (l :: rest) (n + 1) =
      (if isUserRec l then 1 else 0) + userRecCount rest n := by
  simp only [userRecCount, List.take_succ_cons, List.filter_cons]
  cases hl : isUserRec l <;> simp [hl, Nat.add_comm]

theorem extract_umi_count (log : List Line) : ∀ p umi,
    ∀ t ∈ (extractEvents log p umi).2,
      t.user_msg_index = umi + userRecCount log (t.total_msg_index + 1 - p) := by
  induction log with
  | nil => intro p umi t ht; simp [extractEvents] at ht
  | cons l rest ih =>
    intro p umi t ht
    cases h : classifyLine l with
    | snapshot d =>
      simp only [extractEvents, h] at ht
      have hpos := ((extract_pos_bounds rest) (p + 1) umi).2 t ht
      have hc := ih (p + 1) umi t ht
      have e1 : t.total_msg_index + 1 - p = (t.total_msg_index - p) + 1 := by omega
      have e2 : t.total_msg_index + 1 - (p + 1) = t.total_msg_index - p := by omega
      rw [e1, userRecCount_cons]
      have hu : isUserRec l = false := by simp [isUserRec, h]
      rw [e2] at hc
      rw [hu]
      simp only [Bool.false_eq_true, if_false]
      omega
    | userTurn msg ots =>
      have hu : isUserRec l = true := by simp [isUserRec, h]
      cases ots with
      | some t0 =>
        simp only [extractEvents, h] at ht
        rcases List.mem_cons.mp ht with rfl | ht
        · have e1 : p + 1 - p = 1 := by omega
          show umi + 1 = umi + userRecCount (l :: rest) (p + 1 - p)
          rw [e1]
          have : userRecCount (l :: rest) 1 =
              (if isUserRec l then 1 else 0) + userRecCount rest 0 :=
            userRecCount_cons l rest 0
          rw [this, hu, userRecCount_zero]
          simp
        · have hpos := ((extract_pos_bounds rest) (p + 1) (umi + 1)).2 t ht
          have hc := ih (p + 1) (umi + 1) t ht
          have e1 : t.total_msg_index + 1 - p = (t.total_msg_index - p) + 1 := by omega
          have e2 : t.total_msg_index + 1 - (p + 1) = t.total_msg_index - p := by omega
          rw [e1, userRecCount_cons, hu]
          rw [e2] at hc
          simp only [if_true]
          omega
      | none =>
        simp only [extractEvents, h] at ht
        have hpos := ((extract_pos_bounds rest) (p + 1) (umi + 1)).2 t ht
        have hc := ih (p + 1) (umi + 1) t ht
        have e1 : t.total_msg_index + 1 - p = (t.total_msg_index - p) + 1 := by omega
        have e2 : t.total_msg_index + 1 - (p + 1) = t.total_msg_index - p := by omega
        rw [e1, userRecCount_cons, hu]
        rw [e2] at hc
        simp only [if_true]
        omega
    | skip =>
      simp only [extractEvents, h] at ht
      have hpos := ((extract_pos_bounds rest) (p + 1) umi).2 t ht
      have hc := ih (p + 1) umi t ht
      have e1 : t.total_msg_index + 1 - p = (t.total_msg_index - p) + 1 := by omega
      have e2 : t.total_msg_index + 1 - (p + 1) = t.total_msg_index - p := by omega
      rw [e1, userRecCount_cons]
      have hu : isUserRec l = false := by simp [isUserRec, h]
      rw [e2] at hc
      rw [hu]
      simp only [Bool.false_eq_true, if_false]
      omega

theorem extract_src (log : List Line) : ∀ p umi,
    (∀ s ∈ (extractEvents log p umi).1,
        ∃ l, log[s.message_index - p]? = some l ∧ lineSnap l = some s.strip) ∧
    (∀ t ∈ (extractEvents log p umi).2,
        ∃ l, log[t.total_msg_index - p]? = some l ∧
          classifyLine l = LineEvent.userTurn t.message (some t.tsMs)) := by
  induction log with
  | nil =>
    intro p umi
    constructor <;> intro x hx <;> simp [extractEvents] at hx
  | cons l rest ih =>
    intro p umi
    have step : ∀ (q : Nat), p + 1 ≤ q →
        (l :: rest)[q - p]? = rest[q - (p + 1)]? := by
      intro q hq
      have e : q - p = (q - (p + 1)) + 1 := by omega
      rw [e, List.getElem?_cons_succ]
    cases h : classifyLine l with
    | snapshot d =>
      simp only [extractEvents, h]
      refine ⟨fun s hs => ?_, fun t ht => ?_⟩
      · rcases List.mem_cons.mp hs with rfl | hs
        · refine ⟨l, ?_, ?_⟩
          · show (l :: rest)[p - p]? = some l
            have e : p - p = 0 := by omega
            rw [e, List.getElem?_cons_zero]
          · simp [lineSnap, h]
            rfl
        · have hb := ((extract_pos_bounds rest) (p + 1) umi).1 s hs
          obtain ⟨l0, hl0, hsn⟩ := (ih (p + 1) umi).1 s hs
          exact ⟨l0, by rw [step s.message_index hb.1]; exact hl0, hsn⟩
      · have hb := ((extract_pos_bounds rest) (p + 1) umi).2 t ht
        obtain ⟨l0, hl0, hcl⟩ := (ih (p + 1) umi).2 t ht
        exact ⟨l0, by rw [step t.total_msg_index hb.1]; exact hl0, hcl⟩
    | userTurn msg ots =>
      cases ots with
      | some t0 =>
        simp only [extractEvents, h]
        refine ⟨fun s hs => ?_, fun t ht => ?_⟩
        · have hb := ((extract_pos_bounds rest) (p + 1) (umi + 1)).1 s hs
          obtain ⟨l0, hl0, hsn⟩ := (ih (p + 1) (umi + 1)).1 s hs
          exact ⟨l0, by rw [step s.message_index hb.1]; exact hl0, hsn⟩
        · rcases List.mem_cons.mp ht with rfl | ht
          · refine ⟨l, ?_, ?_⟩
            · show (l :: rest)[p - p]? = some l
              have e : p - p = 0 := by omega
              rw [e, List.getElem?_cons_zero]
            · exact h
          · have hb := ((extract_pos_bounds rest) (p + 1) (umi + 1)).2 t ht
            obtain ⟨l0, hl0, hcl⟩ := (ih (p + 1) (umi + 1)).2 t ht
            exact ⟨l0, by rw [step t.total_msg_index hb.1]; exact hl0, hcl⟩
      | none =>
        simp only [extractEvents, h]
        refine ⟨fun s hs => ?_, fun t ht => ?_⟩
        · have hb := ((extract_pos_bounds rest) (p + 1) (umi + 1)).1 s hs
          obtain ⟨l0, hl0, hsn⟩ := (ih (p + 1) (umi + 1)).1 s hs
          exact ⟨l0, by rw [step s.message_index hb.1]; exact hl0, hsn⟩
        · have hb := ((extract_pos_bounds rest) (p + 1) (umi + 1)).2 t ht
          obtain ⟨l0, hl0, hcl⟩ := (ih (p + 1) (umi + 1)).2 t ht
          exact ⟨l0, by rw [step t.total_msg_index hb.1]; exact hl0, hcl⟩
    | skip =>
      simp only [extractEvents, h]
      refine ⟨fun s hs => ?_, fun t ht => ?_⟩
      · have hb := ((extract_pos_bounds rest) (p + 1) umi).1 s hs
        obtain ⟨l0, hl0, hsn⟩ := (ih (p + 1) umi).1 s hs
        exact ⟨l0, by rw [step s.message_index hb.1]; exact hl0, hsn⟩
      · have hb := ((extract_pos_bounds rest) (p + 1) umi).2 t ht
        obtain ⟨l0, hl0, hcl⟩ := (ih (p + 1) umi).2 t ht
        exact ⟨l0, by rw [step t.total_msg_index hb.1]; exact hl0, hcl⟩

theorem extract_shift (log : List Line) : ∀ p umi,
    extractEvents log (p + 1) umi =
      (((extractEvents log p umi).1).map Snapshot.bump,
       ((extractEvents log p umi).2).map Turn.bump) := by
  induction log with
  | nil => intro p umi; rfl
  | cons l rest ih =>
    intro p umi
    cases h : classifyLine l with
    | snapshot d =>
      simp only [extractEvents, h, ih (p + 1) umi]
      rfl
    | userTurn msg ots =>
      cases ots with
      | some t0 =>
        simp only [extractEvents, h, ih (p + 1) (umi + 1)]
        rfl
      | none =>
        simp only [extractEvents, h]
        exact ih (p + 1) (umi + 1)
    | skip =>
      simp only [extractEvents, h]
      exact ih (p + 1) umi

theorem extract_insert (pre : List Line) : ∀ post p umi,
    extractEvents (pre ++ Line.malformed :: post) p umi =
      (((extractEvents (pre ++ post) p umi).1).map
          (Snapshot.bumpAfter (p + pre.length)),
       ((extractEvents (pre ++ post) p umi).2).map
          (Turn.bumpAfter (p + pre.length))) := by
  induction pre with
  | nil =>
    intro post p umi
    have e0 : ([] : List Line) ++ Line.malformed :: post = Line.malformed :: post := rfl
    have e1 : ([] : List Line) ++ post = post := rfl
    have e2 : p + ([] : List Line).length = p := rfl
    rw [e0, e1, e2]
    have hL : extractEvents (Line.malformed :: post) p umi =
        extractEvents post (p + 1) umi := by
      simp [extractEvents, classifyLine]
    rw [hL, extract_shift post p umi]
    have hb := extract_pos_bounds post p umi
    rw [Prod.mk.injEq]
    refine ⟨?_, ?_⟩
    · apply List.map_congr_left
      intro s hs
      have := hb.1 s hs
      simp [Snapshot.bumpAfter, this.1]
    · apply List.map_congr_left
      intro t ht
      have := hb.2 t ht
      simp [Turn.bumpAfter, this.1]
  | cons l pre' ih =>
    intro post p umi
    have e1 : (l :: pre') ++ Line.malformed :: post =
        l :: (pre' ++ Line.malformed :: post) := rfl
    have e2 : (l :: pre') ++ post = l :: (pre' ++ post) := rfl
    have eth : p + (l :: pre').length = (p + 1) + pre'.length := by
      simp only [List.length_cons]
      omega
    rw [e1, e2, eth]
    cases h : classifyLine l with
    | snapshot d =>
      simp only [extractEvents, h, ih post (p + 1) umi, List.map_cons]
      rw [Prod.mk.injEq]
      refine ⟨?_, rfl⟩
      have hhd : Snapshot.bumpAfter ((p + 1) + pre'.length) (d.toSnapshot p) =
          d.toSnapshot p := by
        have hn : ¬ ((p + 1) + pre'.length ≤ (d.toSnapshot p).message_index) := by
          simp only [SnapData.toSnapshot]
          omega
        simp [Snapshot.bumpAfter, hn]
      rw [hhd]
    | userTurn msg ots =>
      cases ots with
      | some t0 =>
        simp only [extractEvents, h, ih post (p + 1) (umi + 1), List.map_cons]
        rw [Prod.mk.injEq]
        refine ⟨rfl, ?_⟩
        have hhd : Turn.bumpAfter ((p + 1) + pre'.length)
            ({ tsMs := t0, message := msg, user_msg_index := umi + 1,
               total_msg_index := p } : Turn) =
            { tsMs := t0, message := msg, user_msg_index := umi + 1,
              total_msg_index := p } := by
          have hn : ¬ ((p + 1) + pre'.length ≤
              ({ tsMs := t0, message := msg, user_msg_index := umi + 1,
                 total_msg_index := p } : Turn).total_msg_index) := by
            show ¬ ((p + 1) + pre'.length ≤ p)
            omega
          simp [Turn.bumpAfter, hn]
        rw [hhd]
      | none =>
        simp only [extractEvents, h]
        exact ih post (p + 1) (umi + 1)
    | skip =>
      simp only [extractEvents, h]
      exact ih post (p + 1) umi

theorem find?_first_char {α : Type} (q : α → Bool) (l : List α) (a : α)
    (h : l.find? q = some a) :
    ∃ i, ∃ hi : i < l.length, l.get ⟨i, hi⟩ = a ∧ q a = true ∧
      ∀ j (hj : j < l.length), j < i → q (l.get ⟨j, hj⟩) = false := by
  induction l with
  | nil => simp [List.find?] at h
  | cons x xs ih =>
    by_cases hx : q x = true
    · rw [List.find?_cons_of_pos _ hx] at h
      refine ⟨0, by simp, ?_, ?_, ?_⟩
      · exact Option.some.inj h
      · rw [← Option.some.inj h]; exact hx
      · intro j hj hj0; omega
    · rw [List.find?_cons_of_neg _ (by simpa using hx)] at h
      obtain ⟨i, hi, hg, hqa, hprev⟩ := ih h
      refine ⟨i + 1, by simp; omega, hg, hqa, ?_⟩
      intro j hj hji
      cases j with
      | zero => simpa using hx
      | succ k =>
        have hk : k < xs.length := by simp at hj; omega
        have := hprev k hk (by omega)
        exact this

theorem pairwise_ne_mem_eq {α β : Type} (f : α → β) :
    ∀ (l : List α), l.Pairwise (fun a b => f a ≠ f b) →
      ∀ a ∈ l, ∀ b ∈ l, f a = f b → a = b := by
  intro l
  induction l with
  | nil => intro _ a ha; simp at ha
  | cons x xs ih =>
    intro hp a ha b hb hf
    rw [List.pairwise_cons] at hp
    rcases List.mem_cons.mp ha with h1 | h1 <;>
      rcases List.mem_cons.mp hb with h2 | h2
    · rw [h1, h2]
    · subst h1; exact absurd hf (hp.1 b h2)
    · subst h2; exact absurd hf.symm (hp.1 a h1)
    · exact ih hp.2 a h1 b h2 hf

/-!  Claim C7. -/

/-- Claim C7: for every input log (blank and malformed lines
included), the total record count returned by the ingestor equals
the number of lines, and the counting pass agrees with the number of
records enumerated by the classifying pass. -/
theorem C7_count_roundtrip (log : List Line) :
    (extract_session_data log).2.2 = log.length ∧
    countPass log = log.length ∧
    (classifyEnum log).length = countPass log := by
  refine ⟨?_, countPass_eq_length log, ?_⟩
  · show countPass log = log.length
    exact countPass_eq_length log
  · rw [classifyEnum_length, countPass_eq_length]

/-!  Claim C6. -/

/-- Claim C6 counterexample: the ingestor copies cumulative totals
verbatim, so a log whose `token_count` records carry totals 100 then
50 yields a snapshot sequence with decreasing `cumulativeTokens`. -/
theorem C6_cex :
    ((extract_session_data c6log).1).map (fun s => s.cumulative_total) =
      [100, 50] ∧
    ¬ List.Chain' (fun a b => a ≤ b)
        (((extract_session_data c6log).1).map (fun s => s.cumulative_total)) := by
  have h1 : ((extract_session_data c6log).1).map (fun s => s.cumulative_total) =
      [100, 50] := rfl
  refine ⟨h1, ?_⟩
  rw [h1]
  intro hch
  have := (List.chain'_cons.mp hch).1
  norm_num at this

/-- Claim C6 (amended): the emitted `cumulativeTokens` are exactly
the source records' values in log order, so they are non-decreasing
whenever the input's cumulative totals are non-decreasing by
position. -/
theorem C6_cumulative_monotone (log : List Line)
    (h : List.Chain' (fun a b => a ≤ b)
        ((log.filterMap lineSnap).map (fun d => d.cumulative_total))) :
    List.Chain' (fun a b => a ≤ b)
      (((extract_session_data log).1).map (fun s => s.cumulative_total)) := by
  have hs := extract_strip log 1 0
  have h2 := congrArg (List.map (fun d : SnapData => d.cumulative_total)) hs
  rw [List.map_map] at h2
  show List.Chain' (fun a b => a ≤ b)
    (((extractEvents log 1 0).1).map (fun s => s.cumulative_total))
  have h3 : ((extractEvents log 1 0).1).map (fun s => s.cumulative_total) =
      ((log.filterMap lineSnap).map (fun d => d.cumulative_total)) := h2
  rw [h3]
  exact h

/-- Witness for C6: a log with totals 1 then 2 satisfies the
hypothesis and yields a non-decreasing snapshot sequence. -/
theorem C6_cumulative_monotone_w :
    List.Chain' (fun a b => a ≤ b)
        ((c6wlog.filterMap lineSnap).map (fun d => d.cumulative_total)) ∧
    List.Chain' (fun a b => a ≤ b)
      (((extract_session_data c6wlog).1).map (fun s => s.cumulative_total)) := by
  have e : (c6wlog.filterMap lineSnap).map (fun d => d.cumulative_total) =
      [1, 2] := rfl
  have hch : List.Chain' (fun a b : Int => a ≤ b)
      ((c6wlog.filterMap lineSnap).map (fun d => d.cumulative_total)) := by
    rw [e]
    norm_num [List.chain'_cons, List.chain'_singleton]
  exact ⟨hch, C6_cumulative_monotone c6wlog hch⟩

/-!  Claim C4. -/

/-- Claim C4 counterexample: inserting an unparseable line at the
front of a one-snapshot log increases the record count by one but
also changes the snapshot sequence, because the snapshot's
`message_index` shifts from 1 to 2. -/
theorem C4_cex :
    (extract_session_data (Line.malformed :: c4log)).2.2 =
      (extract_session_data c4log).2.2 + 1 ∧
    (extract_session_data (Line.malformed :: c4log)).1 ≠
      (extract_session_data c4log).1 := by
  decide

/-- Claim C4 (amended): inserting one unparseable line at any
position increases the total record count by one and leaves both
event streams unchanged except that every event whose
`sequencePosition` is at-or-after the insertion point has it shifted
up by one (all other fields, including `turnIndex`, unchanged). -/
theorem C4_insert (pre post : List Line) :
    (extract_session_data (pre ++ Line.malformed :: post)).2.2 =
      (extract_session_data (pre ++ post)).2.2 + 1 ∧
    (extract_session_data (pre ++ Line.malformed :: post)).1 =
      ((extract_session_data (pre ++ post)).1).map
        (Snapshot.bumpAfter (pre.length + 1)) ∧
    (extract_session_data (pre ++ Line.malformed :: post)).2.1 =
      ((extract_session_data (pre ++ post)).2.1).map
        (Turn.bumpAfter (pre.length + 1)) := by
  have hins := extract_insert pre post 1 0
  have e : 1 + pre.length = pre.length + 1 := by omega
  rw [e] at hins
  refine ⟨?_, ?_, ?_⟩
  · show countPass (pre ++ Line.malformed :: post) = countPass (pre ++ post) + 1
    rw [countPass_eq_length, countPass_eq_length]
    simp only [List.length_append, List.length_cons]
    omega
  · show (extractEvents (pre ++ Line.malformed :: post) 1 0).1 =
      ((extractEvents (pre ++ post) 1 0).1).map
        (Snapshot.bumpAfter (pre.length + 1))
    rw [hins]
  · show (extractEvents (pre ++ Line.malformed :: post) 1 0).2 =
      ((extractEvents (pre ++ post) 1 0).2).map
        (Turn.bumpAfter (pre.length + 1))
    rw [hins]

/-!  Claim C8. -/

/-- Claim C8 counterexample: a user-turn record with an unparseable
timestamp consumes `user_message_index` 1, so the first emitted turn
carries `turnIndex` 2, not 1. -/
theorem C8_cex :
    ((extract_session_data c8log).2.1).map (fun t => t.user_msg_index) = [2] ∧
    (extract_session_data c8log).2.1.length = 1 ∧
    ([2] : List Nat) ≠ [1] := by
  decide

/-- Claim C8 (amended): every emitted snapshot and turn carries a
1-based `sequencePosition` that is unique, strictly increasing in
emission order, and matches its source record; `turnIndex` values
are strictly increasing but equal the 1-based ordinal among all
user-turn RECORDS encountered (including records later dropped for
an unparseable timestamp), so the k-th emitted turn can have
`turnIndex` greater than k. -/
theorem C8_positions (log : List Line) :
    List.Chain' (fun a b => a.message_index < b.message_index)
      (extract_session_data log).1 ∧
    List.Chain' (fun a b => a.total_msg_index < b.total_msg_index)
      (extract_session_data log).2.1 ∧
    List.Chain' (fun a b => a.user_msg_index < b.user_msg_index)
      (extract_session_data log).2.1 ∧
    (∀ s ∈ (extract_session_data log).1,
        1 ≤ s.message_index ∧ s.message_index ≤ log.length ∧
        ∃ l, log[s.message_index - 1]? = some l ∧ lineSnap l = some s.strip) ∧
    (∀ t ∈ (extract_session_data log).2.1,
        1 ≤ t.total_msg_index ∧ t.total_msg_index ≤ log.length ∧
        ∃ l, log[t.total_msg_index - 1]? = some l ∧
          classifyLine l = LineEvent.userTurn t.message (some t.tsMs)) ∧
    (∀ t ∈ (extract_session_data log).2.1,
        t.user_msg_index = userRecCount log t.total_msg_index) := by
  have hch := extract_chains log 1 0
  have hb := extract_pos_bounds log 1 0
  have hsrc := extract_src log 1 0
  have hcnt := extract_umi_count log 1 0
  refine ⟨hch.1, hch.2.1, hch.2.2, ?_, ?_, ?_⟩
  · intro s hs
    have h1 := hb.1 s hs
    exact ⟨h1.1, by omega, hsrc.1 s hs⟩
  · intro t ht
    have h1 := hb.2 t ht
    exact ⟨h1.1, by omega, hsrc.2 t ht⟩
  · intro t ht
    have h1 := hb.2 t ht
    have h2 := hcnt t ht
    have e : t.total_msg_index + 1 - 1 = t.total_msg_index := by omega
    rw [e] at h2
    simpa using h2

/-- Witness for C8: a concrete three-line log with an unclassifiable
middle line; the turn at position 3 is the 2nd user-turn record. -/
theorem C8_positions_w :
    (⟨5, "y", 1, 1⟩ : Turn) ∈ (extract_session_data c8wlog).2.1 ∧
    (⟨5, "y", 1, 1⟩ : Turn).user_msg_index =
      userRecCount c8wlog (⟨5, "y", 1, 1⟩ : Turn).total_msg_index ∧
    (⟨7, "z", 2, 3⟩ : Turn) ∈ (extract_session_data c8wlog).2.1 ∧
    (⟨7, "z", 2, 3⟩ : Turn).user_msg_index =
      userRecCount c8wlog (⟨7, "z", 2, 3⟩ : Turn).total_msg_index :=
  ⟨by decide,
   (C8_positions c8wlog).2.2.2.2.2 ⟨5, "y", 1, 1⟩ (by decide),
   by decide,
   (C8_positions c8wlog).2.2.2.2.2 ⟨7, "z", 2, 3⟩ (by decide)⟩

/-!  Claim C1. -/

/-- Claim C1 counterexample: on a log whose record timestamps are
non-decreasing by position (snapshot at t=50, turns at t=100 and
t=150), the first turn's `durationMs` is −50 < 0; the matched start
snapshot and the boundary-matched end snapshot both have timestamp
50, so the claimed value `timestampAtEnd − timestampAtStart = 0`
differs from the computed −50 (the code subtracts the turn's own
timestamp, not the snapshot's). -/
theorem C1_cex :
    c1log.filterMap lineTs = [50, 100, 150] ∧
    List.Chain' (fun a b : Int => a ≤ b) (c1log.filterMap lineTs) ∧
    turnMetrics c1toks c1msgs 0 = some (0, -50) ∧
    ((-50 : Int) < 0) ∧
    (matchStart c1toks ⟨100, "a", 1, 2⟩).map Snapshot.tsMs = some 50 ∧
    (matchEnd c1toks 150).map Snapshot.tsMs = some 50 ∧
    ((50 : Int) - 50 ≠ -50) := by
  refine ⟨rfl, ?_, by decide, by decide, by decide, by decide, by decide⟩
  have e : c1log.filterMap lineTs = [50, 100, 150] := rfl
  rw [e]
  norm_num [List.chain'_cons, List.chain'_singleton]

/-- Claim C1 (amended): `durationMs = timestampAtEnd − t_i` where
`t_i` is the turn's OWN timestamp; `timestampAtEnd` is the
boundary-matched end snapshot's timestamp for non-last turns (with
`durationMs = 0` when the backward scan finds nothing) and the very
last snapshot's timestamp for the last turn.  It can be negative
even for position-ordered input. -/
theorem C1_duration (toks : List Snapshot) (msgs : List TurnCtx) (i : Nat)
    (m : TurnCtx) (c d : Int) (hm : msgs[i]? = some m)
    (hcd : turnMetrics toks msgs i = some (c, d)) :
    (∀ next, msgs[i + 1]? = some next →
       (∀ tok, matchEnd toks next.tsMs = some tok → d = tok.tsMs - m.tsMs) ∧
       (matchEnd toks next.tsMs = none → d = 0)) ∧
    (msgs[i + 1]? = none →
       ∃ tok, toks.getLast? = some tok ∧ d = tok.tsMs - m.tsMs) := by
  simp only [turnMetrics, hm] at hcd
  cases hnext : msgs[i + 1]? with
  | some next =>
    rw [hnext] at hcd
    dsimp only at hcd
    refine ⟨?_, ?_⟩
    · intro next' hnext'
      have hne : next' = next := (Option.some.inj hnext').symm
      subst hne
      constructor
      · intro tok htok
        rw [htok] at hcd
        dsimp only at hcd
        simp only [Option.some.injEq, Prod.mk.injEq] at hcd
        exact hcd.2.symm
      · intro htok
        rw [htok] at hcd
        dsimp only at hcd
        simp only [Option.some.injEq, Prod.mk.injEq] at hcd
        have hd := hcd.2
        omega
    · intro hno
      exact absurd hno (by simp)
  | none =>
    rw [hnext] at hcd
    dsimp only at hcd
    cases hlast : toks.getLast? with
    | some tok =>
      rw [hlast] at hcd
      dsimp only at hcd
      refine ⟨?_, ?_⟩
      · intro next' hnext'
        exact absurd hnext' (by simp)
      · intro _
        refine ⟨tok, rfl, ?_⟩
        simp only [Option.some.injEq, Prod.mk.injEq] at hcd
        exact hcd.2.symm
    | none =>
      rw [hlast] at hcd
      dsimp only at hcd
      exact absurd hcd (by simp)

/-- Witness for C1: the single (hence last) turn of `c1wlog` gets
`durationMs = 20 = 20 − 0`, the last snapshot's timestamp minus the
turn's own timestamp. -/
theorem C1_duration_w :
    c1wmsgs[0]? = some (⟨0, "q", 5, 5, 1, 1⟩ : TurnCtx) ∧
    turnMetrics c1wtoks c1wmsgs 0 = some (95, 20) ∧
    (c1wmsgs[0 + 1]? = none →
      ∃ tok, c1wtoks.getLast? = some tok ∧
        (20 : Int) = tok.tsMs - (⟨0, "q", 5, 5, 1, 1⟩ : TurnCtx).tsMs) :=
  ⟨by decide, by decide,
    (C1_duration c1wtoks c1wmsgs 0 ⟨0, "q", 5, 5, 1, 1⟩ 95 20
      (by decide) (by decide)).2⟩

/-!  Claim C3. -/

/-- Claim C3 counterexample: for the LAST turn the code takes
`token_data[-1]` directly instead of scanning for the last snapshot
strictly before the end-of-session boundary.  On `c3log` the single
turn gets cost 95 (context 5 → 100), while the claimed rule yields
`contextAtEnd = 5` and cost 0. -/
theorem C3_cex :
    (enrich c3toks (extract_session_data c3log).2.1).map (fun e => e.cost) =
      [95] ∧
    specContextAtEnd c3toks c3msgs 0 ⟨0, "q", 5, 5, 1, 1⟩ = some 5 ∧
    (max 0 ((5 : Int) - 5) = 0) ∧
    ((95 : Int) ≠ 0) := by
  decide

/-- Claim C3 (amended): `costTokens = max(0, contextAtEnd −
contextAtStart)` and is never negative; `contextAtEnd` is the
backward-scanned last snapshot strictly before the next turn's
timestamp for non-last turns (falling back to `contextAtStart`), but
for the LAST turn it is the very last snapshot's context value
itself, not the last snapshot strictly before the session-end
boundary. -/
theorem C3_cost (toks : List Snapshot) (msgs : List TurnCtx) (i : Nat)
    (m : TurnCtx) (c d : Int) (hm : msgs[i]? = some m)
    (hcd : turnMetrics toks msgs i = some (c, d)) :
    0 ≤ c ∧
    (∀ next, msgs[i + 1]? = some next →
       (∀ tok, matchEnd toks next.tsMs = some tok →
          c = max 0 (tok.context_tokens - m.context_tokens)) ∧
       (matchEnd toks next.tsMs = none → c = 0)) ∧
    (msgs[i + 1]? = none →
       ∃ tok, toks.getLast? = some tok ∧
         c = max 0 (tok.context_tokens - m.context_tokens)) := by
  simp only [turnMetrics, hm] at hcd
  cases hnext : msgs[i + 1]? with
  | some next =>
    rw [hnext] at hcd
    dsimp only at hcd
    cases hend : matchEnd toks next.tsMs with
    | some tok0 =>
      rw [hend] at hcd
      dsimp only at hcd
      simp only [Option.some.injEq, Prod.mk.injEq] at hcd
      refine ⟨?_, ?_, ?_⟩
      · rw [← hcd.1]; exact le_max_left 0 _
      · intro next' hnext'
        have hne : next' = next := (Option.some.inj hnext').symm
        subst hne
        refine ⟨?_, ?_⟩
        · intro tok htok
          rw [hend] at htok
          have : tok = tok0 := (Option.some.inj htok).symm
          subst this
          exact hcd.1.symm
        · intro htok
          rw [hend] at htok
          exact absurd htok (by simp)
      · intro hno
        exact absurd hno (by simp)
    | none =>
      rw [hend] at hcd
      dsimp only at hcd
      simp only [Option.some.injEq, Prod.mk.injEq] at hcd
      refine ⟨?_, ?_, ?_⟩
      · rw [← hcd.1]; exact le_max_left 0 _
      · intro next' hnext'
        have hne : next' = next := (Option.some.inj hnext').symm
        subst hne
        refine ⟨?_, ?_⟩
        · intro tok htok
          rw [hend] at htok
          exact absurd htok (by simp)
        · intro _
          rw [← hcd.1]
          simp
      · intro hno
        exact absurd hno (by simp)
  | none =>
    rw [hnext] at hcd
    dsimp only at hcd
    cases hlast : toks.getLast? with
    | some tok0 =>
      rw [hlast] at hcd
      dsimp only at hcd
      simp only [Option.some.injEq, Prod.mk.injEq] at hcd
      refine ⟨?_, ?_, ?_⟩
      · rw [← hcd.1]; exact le_max_left 0 _
      · intro next' hnext'
        exact absurd hnext' (by simp)
      · intro _
        exact ⟨tok0, rfl, hcd.1.symm⟩
    | none =>
      rw [hlast] at hcd
      dsimp only at hcd
      exact absurd hcd (by simp)

/-- Witness for C3: the first turn of `c3wlog` has a next-turn
boundary at t=12; the backward scan finds the snapshot at t=10 with
context 5, giving cost `max(0, 5 − 5) = 0`. -/
theorem C3_cost_w :
    c3wmsgs[0]? = some (⟨0, "q", 5, 5, 1, 1⟩ : TurnCtx) ∧
    turnMetrics c3wtoks c3wmsgs 0 = some (0, 10) ∧
    (0 : Int) ≤ 0 ∧
    (∀ next, c3wmsgs[0 + 1]? = some next →
       (∀ tok, matchEnd c3wtoks next.tsMs = some tok →
          (0 : Int) = max 0 (tok.context_tokens -
            (⟨0, "q", 5, 5, 1, 1⟩ : TurnCtx).context_tokens)) ∧
       (matchEnd c3wtoks next.tsMs = none → (0 : Int) = 0)) := by
  have h := C3_cost c3wtoks c3wmsgs 0 ⟨0, "q", 5, 5, 1, 1⟩ 0 10
    (by decide) (by decide)
  exact ⟨by decide, by decide, h.1, h.2.1⟩

/-!  Claim C5. -/

/-- Claim C5: for a non-empty snapshot sequence in ascending
timestamp order, the matched start snapshot is the first snapshot
whose timestamp is at-or-after the turn's (and, by sortedness, one
with the smallest such timestamp); when no snapshot qualifies, the
match falls back to the last snapshot of the sequence. -/
theorem C5_matching (toks : List Snapshot) (t : Turn) (hne : toks ≠ [])
    (hsort : List.Chain' (fun a b => a.tsMs ≤ b.tsMs) toks) :
    ((∃ tok ∈ toks, t.tsMs ≤ tok.tsMs) →
      ∃ i, ∃ hi : i < toks.length,
        matchStart toks t = some (toks.get ⟨i, hi⟩) ∧
        t.tsMs ≤ (toks.get ⟨i, hi⟩).tsMs ∧
        (∀ j (hj : j < toks.length), j < i →
          (toks.get ⟨j, hj⟩).tsMs < t.tsMs) ∧
        (∀ tok ∈ toks, t.tsMs ≤ tok.tsMs →
          (toks.get ⟨i, hi⟩).tsMs ≤ tok.tsMs)) ∧
    ((∀ tok ∈ toks, tok.tsMs < t.tsMs) →
      matchStart toks t = toks.getLast? ∧ ∃ z, toks.getLast? = some z) := by
  constructor
  · intro hex
    cases hf : toks.find? (fun tok => t.tsMs ≤ tok.tsMs) with
    | none =>
      exfalso
      obtain ⟨tok, htokmem, htokle⟩ := hex
      have hno := List.find?_eq_none.mp hf tok htokmem
      simp only [decide_eq_true_eq] at hno
      exact hno htokle
    | some a =>
      obtain ⟨i, hi, hg, hqa, hprev⟩ := find?_first_char _ toks a hf
      refine ⟨i, hi, ?_, ?_, ?_, ?_⟩
      · simp only [matchStart, hf]
        rw [hg]
      · rw [hg]
        exact of_decide_eq_true hqa
      · intro j hj hji
        have hq := hprev j hj hji
        simp only [decide_eq_false_iff_not] at hq
        omega
      · intro tok htokmem htokle
        obtain ⟨⟨j, hj⟩, hget⟩ := List.mem_iff_get.mp htokmem
        by_cases hji : j < i
        · exfalso
          have hq := hprev j hj hji
          rw [hget] at hq
          simp only [decide_eq_false_iff_not] at hq
          exact hq htokle
        · rcases Nat.eq_or_lt_of_le (Nat.le_of_not_lt hji) with heq | hlt
          · have : toks.get ⟨i, hi⟩ = toks.get ⟨j, hj⟩ := by
              congr 1
              exact Fin.ext heq
            rw [this, hget]
          · haveI : IsTrans Snapshot (fun a b => a.tsMs ≤ b.tsMs) :=
              ⟨fun a b c h1 h2 => le_trans h1 h2⟩
            have hp := List.chain'_iff_pairwise.mp hsort
            have hij := List.pairwise_iff_get.mp hp ⟨i, hi⟩ ⟨j, hj⟩
              (Fin.mk_lt_mk.mpr hlt)
            rw [hget] at hij
            exact hij
  · intro hall
    have hf : toks.find? (fun tok => t.tsMs ≤ tok.tsMs) = none := by
      apply List.find?_eq_none.mpr
      intro x hx
      simp only [decide_eq_true_eq]
      have := hall x hx
      omega
    refine ⟨?_, ?_⟩
    · simp only [matchStart, hf]
    · exact ⟨toks.getLast hne, List.getLast?_eq_getLast_of_ne_nil hne⟩

/-- Witness for C5: snapshots at t=10 and t=20; a turn at t=15
matches the snapshot at t=20 (index 1), and a turn at t=25 falls
back to the last snapshot. -/
theorem C5_matching_w :
    c5toks ≠ [] ∧
    List.Chain' (fun a b => a.tsMs ≤ b.tsMs) c5toks ∧
    (∃ tok ∈ c5toks, c5turnA.tsMs ≤ tok.tsMs) ∧
    (∃ i, ∃ hi : i < c5toks.length,
        matchStart c5toks c5turnA = some (c5toks.get ⟨i, hi⟩) ∧
        c5turnA.tsMs ≤ (c5toks.get ⟨i, hi⟩).tsMs ∧
        (∀ j (hj : j < c5toks.length), j < i →
          (c5toks.get ⟨j, hj⟩).tsMs < c5turnA.tsMs) ∧
        (∀ tok ∈ c5toks, c5turnA.tsMs ≤ tok.tsMs →
          (c5toks.get ⟨i, hi⟩).tsMs ≤ tok.tsMs)) ∧
    (∀ tok ∈ c5toks, tok.tsMs < c5turnB.tsMs) ∧
    (matchStart c5toks c5turnB = c5toks.getLast? ∧
      ∃ z, c5toks.getLast? = some z) := by
  have hne : c5toks ≠ [] := by decide
  have hsort : List.Chain' (fun a b => a.tsMs ≤ b.tsMs) c5toks := by
    have e : c5toks =
        [⟨10, 1, 1, 272000, 1⟩, ⟨20, 2, 2, 272000, 2⟩] := rfl
    rw [e]
    norm_num [List.chain'_cons, List.chain'_singleton]
  refine ⟨hne, hsort, by decide, ?_, by decide, ?_⟩
  · exact (C5_matching c5toks c5turnA hne hsort).1 (by decide)
  · exact (C5_matching c5toks c5turnB hne hsort).2 (by decide)

/-!  Claim C2. -/

/-- Claim C2 counterexample: with snapshots only at positions 2 and
3, position 1 lies BELOW the minimum snapshot position, yet the map
assigns it the extrapolated value −900 instead of leaving it
unmapped (the interpolation loop runs over the whole range
`[1, totalRecordCount]`). -/
theorem C2_cex :
    minIdx c2toks = 2 ∧ (1 : Nat) < 2 ∧
    index_to_ts c2toks 3 1 = some (-900) := by
  refine ⟨rfl, by norm_num, ?_⟩
  have hse : snapExact c2toks 1 = none := rfl
  simp only [index_to_ts, hse]
  rw [show c2toks.isEmpty = false from rfl]
  simp only [Bool.false_eq_true, if_false]
  rw [if_pos (⟨by norm_num, by norm_num⟩ : 1 ≤ 1 ∧ 1 ≤ 3)]
  rw [if_pos (show minIdx c2toks < maxIdx c2toks by decide)]
  rw [show minTs c2toks = 0 from rfl, show maxTs c2toks = 900 from rfl,
      show minIdx c2toks = 2 from rfl, show maxIdx c2toks = 3 from rfl]
  norm_num

/-- Claim C2 (amended): the map is exact at snapshot positions (when
positions are unique, as the ingestor guarantees); EVERY other
position in `[1, totalRecordCount]` — including positions below the
minimum or above the maximum snapshot position — is filled by the
linear formula over the minimum/maximum snapshot positions and
timestamps whenever the positions differ; in the degenerate case
`min == max`, non-snapshot positions stay unmapped. -/
theorem C2_interp (toks : List Snapshot) (total p : Nat) (s : Snapshot) :
    (toks.Pairwise (fun a b => a.message_index ≠ b.message_index) →
      s ∈ toks →
      index_to_ts toks total s.message_index = some (s.tsMs : ℚ)) ∧
    ((∀ a ∈ toks, a.message_index ≠ p) → toks ≠ [] → 1 ≤ p → p ≤ total →
      minIdx toks < maxIdx toks →
      index_to_ts toks total p = some ((minTs toks : ℚ) +
        (((p : ℚ) - (minIdx toks : ℚ)) /
            ((maxIdx toks : ℚ) - (minIdx toks : ℚ))) *
          ((maxTs toks : ℚ) - (minTs toks : ℚ)))) ∧
    ((∀ a ∈ toks, a.message_index ≠ p) → minIdx toks = maxIdx toks →
      index_to_ts toks total p = none) := by
  refine ⟨?_, ?_, ?_⟩
  · intro hU hsmem
    have hmemrev : s ∈ toks.reverse := List.mem_reverse.mpr hsmem
    have hrev : toks.reverse.Pairwise
        (fun a b => a.message_index ≠ b.message_index) :=
      List.pairwise_reverse.mpr (hU.imp (fun h => Ne.symm h))
    cases hf : toks.reverse.find?
        (fun tok => tok.message_index == s.message_index) with
    | none =>
      exfalso
      have := List.find?_eq_none.mp hf s hmemrev
      simp at this
    | some b =>
      have hbmem : b ∈ toks.reverse := List.mem_of_find?_eq_some hf
      have hq := List.find?_some hf
      have hmi : b.message_index = s.message_index := by simpa using hq
      have hbs : b = s :=
        pairwise_ne_mem_eq (fun x => x.message_index) toks.reverse hrev
          b hbmem s hmemrev hmi
      have hse : snapExact toks s.message_index = some (b.tsMs : ℚ) := by
        simp only [snapExact, hf, Option.map_some']
      simp only [index_to_ts, hse]
      rw [hbs]
  · intro hnot hne h1 h2 hminmax
    have hf : toks.reverse.find? (fun tok => tok.message_index == p) = none := by
      apply List.find?_eq_none.mpr
      intro x hx
      have := hnot x (List.mem_reverse.mp hx)
      simpa using this
    have hse : snapExact toks p = none := by
      simp only [snapExact, hf, Option.map_none']
    simp only [index_to_ts, hse]
    have hemp : toks.isEmpty = false := by
      cases toks with
      | nil => exact absurd rfl hne
      | cons x xs => rfl
    rw [hemp]
    simp only [Bool.false_eq_true, if_false]
    rw [if_pos ⟨h1, h2⟩, if_pos hminmax]
  · intro hnot heq
    have hf : toks.reverse.find? (fun tok => tok.message_index == p) = none := by
      apply List.find?_eq_none.mpr
      intro x hx
      have := hnot x (List.mem_reverse.mp hx)
      simpa using this
    have hse : snapExact toks p = none := by
      simp only [snapExact, hf, Option.map_none']
    simp only [index_to_ts, hse]
    split
    · rfl
    · split
      · rw [if_neg (by omega)]
      · rfl

/-- Witness for C2: the spec's own example — snapshots at positions
1 (t=0) and 10 (t=900); position 1 maps exactly to 0, position 5
interpolates to 400; and with a single snapshot position the map
leaves other positions unmapped. -/
theorem C2_interp_w :
    c2wtoks.Pairwise (fun a b => a.message_index ≠ b.message_index) ∧
    (⟨0, 0, 0, 272000, 1⟩ : Snapshot) ∈ c2wtoks ∧
    index_to_ts c2wtoks 10 1 = some 0 ∧
    (∀ a ∈ c2wtoks, a.message_index ≠ 5) ∧
    index_to_ts c2wtoks 10 5 = some 400 ∧
    minIdx c2dtoks = maxIdx c2dtoks ∧
    (∀ a ∈ c2dtoks, a.message_index ≠ 2) ∧
    index_to_ts c2dtoks 10 2 = none := by
  refine ⟨by decide, by decide, ?_, by decide, ?_, by decide, by decide, ?_⟩
  · have h := (C2_interp c2wtoks 10 1 ⟨0, 0, 0, 272000, 1⟩).1
      (by decide) (by decide)
    simpa using h
  · have h := (C2_interp c2wtoks 10 5 ⟨0, 0, 0, 272000, 1⟩).2.1
      (by decide) (by decide) (by norm_num) (by norm_num) (by decide)
    rw [h]
    rw [show minTs c2wtoks = 0 from rfl, show maxTs c2wtoks = 900 from rfl,
        show minIdx c2wtoks = 1 from rfl, show maxIdx c2wtoks = 10 from rfl]
    norm_num
  · exact (C2_interp c2dtoks 10 2 ⟨0, 0, 0, 272000, 1⟩).2.2
      (by decide) (by decide)

/-!  Claim C9. -/

/-- Claim C9: a session whose log yields turns but no resource-usage
snapshots is skipped (the "no token data" notice) without generating
output, and in a batch every surrounding session is still processed
normally. -/
theorem C9_skip (log : List Line)
    (_hT : (extract_session_data log).2.1 ≠ [])
    (hS : (extract_session_data log).1 = []) :
    processSession log = SessionOutcome.skippedNoTokenData ∧
    ∀ logsL logsR : List (List Line),
      processBatch (logsL ++ log :: logsR) =
        processBatch logsL ++
          SessionOutcome.skippedNoTokenData :: processBatch logsR := by
  have h1 : processSession log = SessionOutcome.skippedNoTokenData := by
    simp only [processSession]
    rw [hS]
    rfl
  refine ⟨h1, ?_⟩
  intro logsL logsR
  simp only [processBatch, List.map_append, List.map_cons, h1]

/-- Witness for C9: a one-turn, zero-snapshot log is skipped and the
good sessions on both sides of it in a batch are still charted. -/
theorem C9_skip_w :
    (extract_session_data c9log).2.1 ≠ [] ∧
    (extract_session_data c9log).1 = [] ∧
    processSession c9log = SessionOutcome.skippedNoTokenData ∧
    processBatch ([c9good] ++ c9log :: [c9good]) =
      processBatch [c9good] ++
        SessionOutcome.skippedNoTokenData :: processBatch [c9good] := by
  have h := C9_skip c9log (by decide) (by decide)
  exact ⟨by decide, by decide, h.1, h.2 [c9good] [c9good]⟩

/-!  Claim C10. -/

/-- Claim C10 counterexample: a `token_count` record that parses
successfully but whose `info` dict is empty (hence falsy) is skipped
outright — no snapshot with substituted defaults is emitted, only
the record count grows. -/
theorem C10_cex :
    c10rec.isEventMsg = true ∧
    c10rec.payload = Payload.token_count (some ⟨none, none, none, false⟩) ∧
    extract_session_data [Line.record c10rec] = ([], [], 1) := by
  decide

/-- Claim C10 (amended): for a `token_count` record whose `info`
dict is present and non-empty (truthy), missing fields are
defaulted — 272000 for `model_context_window` and 0 for the
cumulative/context token values — and the snapshot is emitted; a
record whose `info` is empty (or absent) is skipped instead. -/
theorem C10_defaults (r : Record) (i : Info) (t : Int)
    (hev : r.isEventMsg = true)
    (hp : r.payload = Payload.token_count (some i))
    (ht : r.tsMs = some t) :
    (i.truthy = true →
      extract_session_data [Line.record r] =
        ([⟨t, ((i.total_token_usage.getD ⟨none⟩).total_tokens).getD 0,
             ((i.last_token_usage.getD ⟨none⟩).total_tokens).getD 0,
             i.model_context_window.getD 272000, 1⟩], [], 1)) ∧
    (i.truthy = false →
      extract_session_data [Line.record r] = ([], [], 1)) := by
  constructor
  · intro htr
    have hcl : classifyLine (Line.record r) =
        LineEvent.snapshot
          ⟨t, ((i.total_token_usage.getD ⟨none⟩).total_tokens).getD 0,
           ((i.last_token_usage.getD ⟨none⟩).total_tokens).getD 0,
           i.model_context_window.getD 272000⟩ := by
      simp [classifyLine, hev, hp, htr, ht]
    simp [extract_session_data, extractEvents, hcl, countPass,
      SnapData.toSnapshot]
  · intro htr
    have hcl : classifyLine (Line.record r) = LineEvent.skip := by
      simp [classifyLine, hev, hp, htr]
    simp [extract_session_data, extractEvents, hcl, countPass]

/-- Witness for C10: a truthy `info` dict carrying only unrelated
keys yields the snapshot `(0, 0, 272000)` at position 1. -/
theorem C10_defaults_w :
    c10wrec.isEventMsg = true ∧
    (⟨none, none, none, true⟩ : Info).truthy = true ∧
    extract_session_data [Line.record c10wrec] =
      ([⟨0, 0, 0, 272000, 1⟩], [], 1) := by
  have h := C10_defaults c10wrec ⟨none, none, none, true⟩ 0 rfl rfl rfl
  exact ⟨rfl, rfl, h.1 rfl⟩
